import Mathlib

/-!
Verification of `src/main.rs` of `rustls_early_data_hang`: a minimal
TLS-terminating HTTP/1.1 responder.  The program is shallowly embedded here:
plaintext and responses are byte sequences (`List Nat`, one `Nat` per byte),
the TLS session and the transport are driven through explicit oracle streams,
and each fallible Rust step (`?`, `unwrap`, `panic!`) becomes an explicit
result constructor.  All definitions are structurally recursive so that every
concrete instance evaluates inside the kernel.
-/

set_option maxRecDepth 100000

namespace EarlyData

/-- Bytes of an ASCII string literal (every string used here is ASCII, where
UTF-8 bytes and code points coincide). -/
def strBytes (s : String) : List Nat := s.data.map Char.toNat

/-- Rust `str::split(sep)` on a byte sequence: splits at every separator byte,
keeping empty segments (`"".split` yields one empty segment). -/
def splitOnByte (sep : Nat) : List Nat → List (List Nat)
  | [] => [[]]
  | b :: rest =>
      match splitOnByte sep rest with
      | [] => [[]]
      | l :: ls => if b = sep then [] :: l :: ls else (b :: l) :: ls

/-- The per-line post-processing Rust `str::lines` applies to a segment whose
terminating `'\n'` has been split off: one trailing `'\r'` (byte 13) is then
also stripped, so that `"\r\n"` line endings are recognized. -/
def stripCr (l : List Nat) : List Nat :=
  if l.getLast? = some 13 then l.dropLast else l

/-- Rust `str::lines` on a byte sequence (current `std` semantics, the only
ones this rustls-0.23-era crate builds with): lines are split at `'\n'`
(byte 10); a segment that was terminated by `'\n'` additionally has one
trailing `'\r'` stripped, while a final segment not terminated by `'\n'` is
kept verbatim — a trailing bare `'\r'` is included in the last line; the
empty final segment produced by a terminating `'\n'` yields no line. -/
def rustLines (s : List Nat) : List (List Nat) :=
  let segs := splitOnByte 10 s
  if segs.getLast? = some [] then segs.dropLast.map stripCr
  else segs.dropLast.map stripCr ++ [segs.getLastD []]

/-- The request-completion check of `serve_once` (main.rs:91-96):
`request[..cursor].lines().last() == Some("")`. -/
def isComplete (s : List Nat) : Bool := (rustLines s).getLast? == some []

/-- The claim's notion of "the accumulated bytes end in a terminating blank
line": the bytes end with an empty line that is itself terminated, i.e. they
end with `"\n\n"` or `"\n\r\n"`, or consist of the single blank line `"\n"`
or `"\r\n"`.  Stated on the reversed byte sequence. -/
def endsBlank (s : List Nat) : Bool :=
  decide (s.reverse.take 2 = [10, 10])
  || decide (s.reverse.take 3 = [10, 13, 10])
  || decide (s.reverse = [10])
  || decide (s.reverse = [10, 13])

/-- Rust `str::replace` with an explicit structural fuel; `replaceAll` below
instantiates the fuel with the length of the subject, which suffices because
every step consumes at least one byte.  (The program only ever calls `replace`
with a non-empty pattern, so the degenerate empty-pattern case is irrelevant
to the embedding; here it leaves the subject unchanged.) -/
def replaceFuel (pat rep : List Nat) : Nat → List Nat → List Nat
  | _, [] => []
  | 0, s => s
  | fuel + 1, b :: rest =>
      if pat ≠ [] ∧ pat.isPrefixOf (b :: rest) then
        rep ++ replaceFuel pat rep fuel ((b :: rest).drop pat.length)
      else
        b :: replaceFuel pat rep fuel rest

/-- Rust `str::replace`: replace every (leftmost-first, non-overlapping)
occurrence of `pat` in `s` by `rep`. -/
def replaceAll (s pat rep : List Nat) : List Nat :=
  replaceFuel pat rep s.length s

/-- `INDEX_HTML_TEMPLATE` (main.rs:186-193), byte for byte. -/
def INDEX_HTML_TEMPLATE : List Nat :=
  strBytes "HTTP/1.1 200 OK\ncontent-type: text/html\ncontent-length: \x7bcontent_len\x7d\n\n\x7bindex_html\x7d\n\n\n"

/-- `INDEX_HTML` (main.rs:196-235), byte for byte. -/
def INDEX_HTML : List Nat :=
  strBytes "<!DOCTYPE html>\n<html>\n\n<head>\n  <title>Axum Fetch Hang</title>\n  <meta content=\"text/html;charset=utf-8\" http-equiv=\"Content-Type\" />\n  <meta name=\"viewport\" content=\"width=device-width, initial-scale=1\" />\n  <meta charset=\"UTF-8\" />\n</head>\n\n<body>\n  <p id=\"main\">Please check the console for logs, and network tab for hanging requests.</p>\n  <script lang=\"text/javascript\">\n    function fetchData() \x7b\n      return fetch(\"https://127.0.0.1:3000/json\", \x7b\n        credentials: \x27include\x27\n      \x7d)\n      .then(response => \x7b\n        if (!response.ok) \x7b\n          throw new Error(\x27Network response was not ok\x27);\n        \x7d\n        return response.json();\n      \x7d)\n      .then(data => \x7b\n        console.log(data);\n        return true;\n      \x7d)\n      .catch(error => \x7b\n        console.error(\x27There was a problem with the fetch operation:\x27, error);\n        return false;\n      \x7d);\n    \x7d\n\n    fetchData();\n    setTimeout(fetchData, 3000);\n  </script>\n</body>\n\n</html>\n"

/-- `JSON` (main.rs:238-245), byte for byte. -/
def JSON : List Nat :=
  strBytes "HTTP/1.1 200 OK\ncontent-type: application/json\n\n\x7b\n    \"json\": \"object\"\n\x7d\n\n"

/-- `ERROR` (main.rs:248-256), byte for byte. -/
def ERROR : List Nat :=
  strBytes "HTTP/1.1 500 INTERNAL SERVER ERROR\ncontent-type: text/html\n\n<html><body>\nSomething went wrong\n</body></html>\n\n\n"

/-- `index()` (main.rs:133-138): the template with `{content_len}` replaced by
the decimal rendering of `INDEX_HTML.len() + 2` and `{index_html}` replaced by
the page body. -/
def index : List Nat :=
  replaceAll
    (replaceAll INDEX_HTML_TEMPLATE (strBytes "\x7bcontent_len\x7d")
      (strBytes (Nat.repr (INDEX_HTML.length + 2))))
    (strBytes "\x7bindex_html\x7d") INDEX_HTML

/-- `json()` (main.rs:141-144). -/
def json : List Nat := JSON

/-- `error()` (main.rs:147-150). -/
def error : List Nat := ERROR

/-- `request_line.starts_with("GET")` (main.rs:106). -/
def startsWithGET (line : List Nat) : Bool := (strBytes "GET").isPrefixOf line

/-- Path extraction (main.rs:118-121):
`request_line.split(' ').find(|seg| seg.starts_with('/'))` (space = byte 32,
`'/'` = byte 47).  The `.unwrap()` on the result is modelled at the caller. -/
def pathSegment? (line : List Nat) : Option (List Nat) :=
  (splitOnByte 32 line).find? (fun seg => seg.head? == some 47)

/-- Route dispatch (main.rs:123-127): exact match on the path segment. -/
def dispatch (p : List Nat) : List Nat :=
  if p = strBytes "/" then index
  else if p = strBytes "/json" then json
  else error

/-- `request.lines().next()` (main.rs:105): the first line of the finalized
request text. -/
def requestLine? (req : List Nat) : Option (List Nat) := (rustLines req).head?

/-- Observer: the status line of a generated response (its first line). -/
def statusLineOf? (r : List Nat) : Option (List Nat) := (rustLines r).head?

/-- Observer: the status code of a generated response (second space-delimited
token of the status line). -/
def statusCodeOf? (r : List Nat) : Option (List Nat) :=
  match statusLineOf? r with
  | none => none
  | some l => ((splitOnByte 32 l).drop 1).head?

/-- Observer: whether a response contains a `content-type` header line. -/
def hasContentType (r : List Nat) : Bool :=
  (rustLines r).any (fun l => (strBytes "content-type: ").isPrefixOf l)

/-- Observer: the value of the `content-length` header of a response. -/
def contentLengthOf? (r : List Nat) : Option (List Nat) :=
  (rustLines r).findSome?
    (fun l =>
      if (strBytes "content-length: ").isPrefixOf l then
        some (l.drop (strBytes "content-length: ").length)
      else none)

/-- Observer: the body of a response, i.e. the bytes after the first blank
line (the first `"\n\n"`) terminating the headers. -/
def bodyOf : List Nat → List Nat
  | [] => []
  | 10 :: 10 :: rest => rest
  | _ :: rest => bodyOf rest

/-- The request-detection logic of the read loop (main.rs:75-99), abstracted
over chunk delivery: bytes arrive in chunks, each chunk is appended to the
accumulator, and after each append the completion check `isComplete` runs on
the bytes accumulated so far; the loop stops at the first chunk after which
the check succeeds, yielding the chunk index and the accumulated contents. -/
def detectFrom : List Nat → Nat → List (List Nat) → Option (Nat × List Nat)
  | _, _, [] => none
  | acc, k, c :: cs =>
      let acc' := acc ++ c
      if isComplete acc' then some (k, acc') else detectFrom acc' (k + 1) cs

/-- Request detection started on an empty accumulator. -/
def detect (chunks : List (List Nat)) : Option (Nat × List Nat) :=
  detectFrom [] 0 chunks

/-- Outcome of one iteration of the request-read loop (main.rs:75-99), as seen
by `serve_once`: the `complete_io` call errors (propagated by `?`), or the
non-blocking decrypted read yields data, would-block, or some other error
(whose `unwrap` panics). -/
inductive RdIter where
  | ioErr
  | data (chunk : List Nat)
  | wouldBlock
  | readErr

/-- Result of the request-read loop. -/
inductive ReadResult where
  | done (finalized : List Nat)
  | errProp
  | panicked
  | outOfInput
deriving DecidableEq

/-- The request-read loop of `serve_once` (main.rs:73-99).  `buf` is
`request[..cursor]`; the backing buffer is the fixed `vec![0u8; 4096]`, so a
read appends at most `4096 - cursor` bytes.  Would-block is mapped to zero
bytes read; any other read error panics; a `complete_io` error propagates.
After each iteration's (possibly empty) append, the completion check runs;
on success the loop breaks with the accumulated bytes (the truncation
`request.truncate(cursor)` of main.rs:101). -/
def readLoop : List RdIter → List Nat → ReadResult
  | [], _ => .outOfInput
  | .ioErr :: _, _ => .errProp
  | .readErr :: _, _ => .panicked
  | .wouldBlock :: rest, buf =>
      if isComplete buf then .done buf else readLoop rest buf
  | .data chunk :: rest, buf =>
      let buf' := buf ++ chunk.take (4096 - buf.length)
      if isComplete buf' then .done buf' else readLoop rest buf'

/-- UTF-8 validity with structural fuel (the fuel is instantiated with the
length of the sequence, which suffices because every step consumes at least
one byte). Standard table: ASCII; 2-byte leads C2-DF; 3-byte leads E0 (second
byte A0-BF), E1-EC/EE-EF (second byte 80-BF), ED (second byte 80-9F, excluding
surrogates); 4-byte leads F0 (second byte 90-BF), F1-F3 (second byte 80-BF),
F4 (second byte 80-8F); continuation bytes 80-BF. -/
def validUtf8Fuel : Nat → List Nat → Bool
  | _, [] => true
  | 0, _ => false
  | fuel + 1, b :: rest =>
      if b < 0x80 then validUtf8Fuel fuel rest
      else if b < 0xC2 then false
      else if b ≤ 0xDF then
        match rest with
        | b1 :: rest1 =>
            decide (0x80 ≤ b1 ∧ b1 < 0xC0) && validUtf8Fuel fuel rest1
        | [] => false
      else if b ≤ 0xEF then
        match rest with
        | b1 :: b2 :: rest2 =>
            (if b = 0xE0 then decide (0xA0 ≤ b1 ∧ b1 < 0xC0)
             else if b = 0xED then decide (0x80 ≤ b1 ∧ b1 < 0xA0)
             else decide (0x80 ≤ b1 ∧ b1 < 0xC0)) &&
            decide (0x80 ≤ b2 ∧ b2 < 0xC0) && validUtf8Fuel fuel rest2
        | _ => false
      else if b ≤ 0xF4 then
        match rest with
        | b1 :: b2 :: b3 :: rest3 =>
            (if b = 0xF0 then decide (0x90 ≤ b1 ∧ b1 < 0xC0)
             else if b = 0xF4 then decide (0x80 ≤ b1 ∧ b1 < 0x90)
             else decide (0x80 ≤ b1 ∧ b1 < 0xC0)) &&
            decide (0x80 ≤ b2 ∧ b2 < 0xC0) &&
            decide (0x80 ≤ b3 ∧ b3 < 0xC0) && validUtf8Fuel fuel rest3
        | _ => false
      else false

/-- UTF-8 validity of a byte sequence. -/
def validUtf8 (s : List Nat) : Bool := validUtf8Fuel s.length s

/-- `String::from_utf8(request)?` (main.rs:102): the finalized buffer is
interpreted as UTF-8 text; invalid UTF-8 is an error propagated by `?`. -/
def finalizeRequest (buf : List Nat) : Option (List Nat) :=
  if validUtf8 buf then some buf else none

/-- Result of handling a finalized request (main.rs:104-127): either a
response buffer was generated, or the connection unit panicked (`unwrap` on a
missing first line or path token, or the explicit `panic!` on a non-GET
method). -/
inductive HandleResult where
  | resp (r : List Nat)
  | panicked
deriving DecidableEq

/-- Request handling after finalization (main.rs:104-127): extract the first
line (`unwrap` panics if there is none), require it to start with `GET`
(`panic!` otherwise), extract the path segment (`unwrap` panics if there is
none), and dispatch. -/
def handleRequest (req : List Nat) : HandleResult :=
  match requestLine? req with
  | none => .panicked
  | some line =>
      if startsWithGET line then
        match pathSegment? line with
        | none => .panicked
        | some p => .resp (dispatch p)
      else .panicked

/-- One iteration of the handshake loop (main.rs:63-71): either
`is_handshaking` reported false (loop exits), or `complete_io` succeeded, or
`complete_io` failed (logged, `serve_once` returns `Ok(())`). -/
inductive HsIter where
  | finished
  | stepOk
  | stepErr

/-- Outcome of the handshake loop. -/
inductive HsOutcome where
  | completed
  | abortedOk
  | outOfInput
deriving DecidableEq

/-- The handshake loop of `serve_once` (main.rs:63-71). -/
def runHandshake : List HsIter → HsOutcome
  | [] => .outOfInput
  | .finished :: _ => .completed
  | .stepOk :: rest => runHandshake rest
  | .stepErr :: _ => .abortedOk

/-- Result of `serve_once`: returned `Ok(())` early after a handshake error
without reading a request or writing a response; or reached `respond` with a
generated response buffer; or propagated a hard error (`?`); or panicked; or
the oracle stream ran out. -/
inductive ServeResult where
  | okNoResponse
  | response (r : List Nat)
  | errProp
  | panicked
  | outOfInput
deriving DecidableEq

/-- `serve_once` (main.rs:62-130): handshake loop, request-read loop,
finalization (`String::from_utf8`), request handling, and entry into
`respond` with the generated response buffer. -/
def serveOnce (hs : List HsIter) (rd : List RdIter) : ServeResult :=
  match runHandshake hs with
  | .abortedOk => .okNoResponse
  | .outOfInput => .outOfInput
  | .completed =>
      match readLoop rd [] with
      | .outOfInput => .outOfInput
      | .errProp => .errProp
      | .panicked => .panicked
      | .done buf =>
          match finalizeRequest buf with
          | none => .errProp
          | some req =>
              match handleRequest req with
              | .panicked => .panicked
              | .resp r => .response r

/-- Observable I/O events of `respond` (main.rs:153-183): `write_tls` moving
`n` ciphertext bytes to the transport, `conn.flush()`, handing a plaintext
chunk to the session's writer (recording the offered byte count, the count
the session reported accepted, and the session's pending outbound ciphertext
at that moment), `complete_io`, and `send_close_notify`. -/
inductive WEv where
  | writeTls (n : Nat)
  | connFlush
  | handPlain (offered accepted pendingAtHand : Nat)
  | ioSync
  | closeNotify
deriving DecidableEq

/-- The inner drain loop of `respond` (main.rs:163-166):
`while tls.wants_write() { tls.write_tls(&mut conn)?; conn.flush()?; }`.
`pending` is the session's outbound ciphertext byte count (`wants_write` is
`pending ≠ 0`); `outs i` is the number of ciphertext bytes the `i`-th
`write_tls` call moves (capped by what is pending).  Returns the `write_tls`
call counter, the pending count on exit, and the emitted events; `none` means
the fuel ran out before the session stopped wanting to write. -/
def drainWrites (outs : Nat → Nat) : Nat → Nat → Nat → Option (Nat × Nat × List WEv)
  | _, i, 0 => some (i, 0, [])
  | 0, _, _ + 1 => none
  | fuel + 1, i, pending =>
      let n := min (outs i) pending
      match drainWrites outs fuel (i + 1) (pending - n) with
      | none => none
      | some (i', pfin, evs) =>
          some (i', pfin, WEv.writeTls n :: WEv.connFlush :: evs)

/-- The outer loop of `respond` (main.rs:156-171).  `buf` is the unsent
plaintext; each iteration first drains pending ciphertext (with per-call
drain fuel `d`), then hands the whole remaining buffer to the session's
writer, which reports `min (accepts j) buf.length` bytes accepted (`j` is the
writer-call counter); the cursor advances by exactly the accepted count and
the session's pending ciphertext becomes `enc j k` (the encryption oracle).
Returns the final pending count and the emitted events. -/
def respondLoop (outs accepts : Nat → Nat) (enc : Nat → Nat → Nat) (d : Nat) :
    Nat → Nat → Nat → List Nat → Nat → Option (Nat × List WEv)
  | 0, _, _, buf, pending => if buf.isEmpty then some (pending, []) else none
  | fuel + 1, i, j, buf, pending =>
      if buf.isEmpty then some (pending, [])
      else
        match drainWrites outs d i pending with
        | none => none
        | some (i', pfin, devs) =>
            let offered := buf.length
            let k := min (accepts j) offered
            match respondLoop outs accepts enc d fuel i' (j + 1) (buf.drop k) (enc j k) with
            | none => none
            | some (pend, evs) =>
                some (pend, devs ++ WEv.handPlain offered k pfin :: evs)

/-- `respond` (main.rs:153-183): the write loop followed by
`tls.complete_io`, `tls.send_close_notify()`, `tls.complete_io`,
`conn.flush()`.  Returns the full event trace, or `none` if the fuel ran
out. -/
def respond (outs accepts : Nat → Nat) (enc : Nat → Nat → Nat)
    (d fuel : Nat) (buf : List Nat) (pending0 : Nat) : Option (List WEv) :=
  match respondLoop outs accepts enc d fuel 0 0 buf pending0 with
  | none => none
  | some (_, evs) =>
      some (evs ++ [WEv.ioSync, WEv.closeNotify, WEv.ioSync, WEv.connFlush])

/-- The plaintext hand-off events of a trace, as
(offered, accepted, pending-at-hand-off) triples. -/
def handsOf (evs : List WEv) : List (Nat × Nat × Nat) :=
  evs.filterMap (fun ev =>
    match ev with
    | WEv.handPlain o a p => some (o, a, p)
    | _ => none)
/-- The sequencing property of `respond` claimed by the spec: the trace is a
write phase followed by the closing sequence in which close-notify precedes a
full ciphertext I/O sync which precedes the transport flush; every plaintext
hand-off happens with no pending outbound ciphertext and is accepted at most
in full; and the accepted counts sum to the whole plaintext buffer (the
cursor advances by exactly the accepted counts until the buffer is
consumed). -/
def RespondTraceOk (buf : List Nat) (tr : List WEv) : Prop :=
  ∃ evs, tr = evs ++ [WEv.ioSync, WEv.closeNotify, WEv.ioSync, WEv.connFlush]
    ∧ ((handsOf evs).map (fun x => x.2.1)).sum = buf.length
    ∧ ∀ x ∈ handsOf evs, x.2.2 = 0 ∧ x.2.1 ≤ x.1

/-- The routing property of claim C1, for a given path segment. -/
def RouteSpec (p : List Nat) : Prop :=
  (p = strBytes "/" → dispatch p = index)
  ∧ (p = strBytes "/json" → dispatch p = json)
  ∧ (p ≠ strBytes "/" → p ≠ strBytes "/json" → dispatch p = error)
  ∧ statusLineOf? index = some (strBytes "HTTP/1.1 200 OK")
  ∧ statusLineOf? json = some (strBytes "HTTP/1.1 200 OK")
  ∧ statusCodeOf? error = some (strBytes "500")
  ∧ hasContentType index = true
  ∧ hasContentType json = true
  ∧ hasContentType error = true

/-- A well-formed LF-terminated request head. -/
def goodHead : List Nat := strBytes "GET / HTTP/1.1\n\n"

/-- The spec's own example head, CRLF-terminated. -/
def crlfHead : List Nat := strBytes "GET / HTTP/1.1\r\n\r\n"

/-- A valid request head one byte over the buffer capacity: 4095 `'a'` bytes
followed by the terminating blank line `\n\n` (4097 bytes). -/
def oversizedHead : List Nat := List.replicate 4095 97 ++ [10, 10]

/-- A finalized request head with a non-GET method. -/
def postHead : List Nat := strBytes "POST / HTTP/1.1\n\n"

/-- A concrete `respond` trace: 7 plaintext bytes, initial pending 4, the
transport draining 5 ciphertext bytes per `write_tls` call, the session
accepting 3 plaintext bytes per writer call and queueing 4 ciphertext bytes
per encryption. -/
def respondDemoTrace : List WEv :=
  [WEv.writeTls 4, WEv.connFlush, WEv.handPlain 7 3 0,
   WEv.writeTls 4, WEv.connFlush, WEv.handPlain 4 3 0,
   WEv.writeTls 4, WEv.connFlush, WEv.handPlain 1 1 0,
   WEv.ioSync, WEv.closeNotify, WEv.ioSync, WEv.connFlush]

/-- Hand-off extraction distributes over trace concatenation. -/
lemma handsOf_append (a b : List WEv) :
    handsOf (a ++ b) = handsOf a ++ handsOf b := by
  simp [handsOf]

/-- Hand-off extraction on a leading hand-off event. -/
lemma handsOf_cons_hand (o a p : Nat) (l : List WEv) :
    handsOf (WEv.handPlain o a p :: l) = (o, a, p) :: handsOf l := rfl

/-- C1: for every finalized request whose request line starts with `GET`, the
dispatcher selects the response by exact match on the first space-delimited
token beginning with `/` (the request line's tokens are separated by the
space character, main.rs:118-121): path `/` yields the HTML index response
with status line `HTTP/1.1 200 OK`, path `/json` yields the JSON response
with status line `HTTP/1.1 200 OK`, and every other path yields the generic
error response with status 500; each of the three responses contains a
`content-type` header. -/
theorem dispatch_routes (line p : List Nat)
    (_hget : startsWithGET line = true) (_hpath : pathSegment? line = some p) :
    RouteSpec p := by
  refine ⟨fun h => by rw [h]; decide, fun h => by rw [h]; decide, fun h1 h2 => ?_,
    by decide, by decide, by decide, by decide, by decide, by decide⟩
  simp only [dispatch]
  rw [if_neg h1, if_neg h2]

/-- Witness for C1 at the request line `GET /json HTTP/1.1`. -/
theorem dispatch_routes_witness : RouteSpec (strBytes "/json") :=
  dispatch_routes (strBytes "GET /json HTTP/1.1") (strBytes "/json")
    (by decide) (by decide)

/-- C3: the index response generator substitutes into the template's
`{content_len}` placeholder the decimal rendering of the byte length of
`INDEX_HTML` plus exactly 2, and into `{index_html}` the page body itself,
so the `content-length` header value of the generated index response equals
`INDEX_HTML.len() + 2`. -/
theorem index_content_length :
    contentLengthOf? index = some (strBytes (Nat.repr (INDEX_HTML.length + 2)))
    ∧ index = strBytes "HTTP/1.1 200 OK\ncontent-type: text/html\ncontent-length: "
        ++ strBytes (Nat.repr (INDEX_HTML.length + 2)) ++ strBytes "\n\n"
        ++ INDEX_HTML ++ strBytes "\n\n\n" := by
  decide

/-- C4 counterexample: the body of the `/json` response (the bytes after the
blank line terminating the headers) is not the claimed
`{\n    "json": "object"\n}\n` — the `JSON` template carries one further
trailing newline (main.rs:243-245). -/
theorem json_body_counterexample :
    bodyOf (dispatch (strBytes "/json"))
      = strBytes "\x7b\n    \"json\": \"object\"\n\x7d\n\n"
    ∧ bodyOf (dispatch (strBytes "/json"))
      ≠ strBytes "\x7b\n    \"json\": \"object\"\n\x7d\n" := by
  decide

/-- C4 amended: for a request with path `/json` the generated response has
status line `HTTP/1.1 200 OK`, a `content-type: application/json` header
line, and a body exactly `{\n    "json": "object"\n}\n\n` (with a second
trailing newline). -/
theorem json_route_response :
    dispatch (strBytes "/json") = json
    ∧ statusLineOf? json = some (strBytes "HTTP/1.1 200 OK")
    ∧ strBytes "content-type: application/json" ∈ rustLines json
    ∧ bodyOf json = strBytes "\x7b\n    \"json\": \"object\"\n\x7d\n\n" := by
  decide

/-- Helper for C2: if the full input satisfies the completion check but no
proper prefix of it does, then the detection procedure, run on any partition
of the input into chunks, succeeds and stops with exactly the full input
accumulated. -/
lemma detectFrom_reaches (s : List Nat) (hs : isComplete s = true)
    (hpre : ∀ k, k < s.length → isComplete (s.take k) = false) :
    ∀ (chunks : List (List Nat)) (acc : List Nat) (k : Nat),
      acc ++ chunks.flatten = s → acc ≠ s →
      ∃ n, detectFrom acc k chunks = some (n, s) := by
  intro chunks
  induction chunks with
  | nil =>
      intro acc k hj hne
      simp only [List.flatten_nil, List.append_nil] at hj
      exact absurd hj hne
  | cons c cs ih =>
      intro acc k hj hne
      have hj' : (acc ++ c) ++ cs.flatten = s := by simpa [List.append_assoc] using hj
      by_cases hacc : acc ++ c = s
      · refine ⟨k, ?_⟩
        simp only [detectFrom]
        rw [hacc, hs]
        simp
      · have htake : s.take (acc ++ c).length = acc ++ c := by
          rw [← hj']
          exact List.take_left _ _
        have hlen : (acc ++ c).length < s.length := by
          rcases hcs : cs.flatten with _ | ⟨b, bs⟩
          · rw [hcs, List.append_nil] at hj'
            exact absurd hj' hacc
          · have := congrArg List.length hj'
            rw [hcs] at this
            simp only [List.length_append, List.length_cons] at this ⊢
            omega
        have hcomp : isComplete (acc ++ c) = false := by
          have h2 := hpre (acc ++ c).length hlen
          rwa [htake] at h2
        obtain ⟨n, hn⟩ := ih (acc ++ c) (k + 1) hj' hacc
        refine ⟨n, ?_⟩
        simp only [detectFrom, hcomp]
        simpa using hn

/-- Helper: the defining equation of `splitOnByte` on a cons cell, with the
recursive result supplied. -/
lemma splitOnByte_cons_eq (sep b : Nat) (t l : List Nat) (ls : List (List Nat))
    (h : splitOnByte sep t = l :: ls) :
    splitOnByte sep (b :: t) = if b = sep then [] :: l :: ls else (b :: l) :: ls := by
  show (match splitOnByte sep t with
        | [] => [[]]
        | l :: ls => if b = sep then [] :: l :: ls else (b :: l) :: ls)
      = if b = sep then [] :: l :: ls else (b :: l) :: ls
  rw [h]

/-- Helper: `splitOnByte` always yields at least one segment. -/
lemma splitOnByte_exists_cons (sep : Nat) (t : List Nat) :
    ∃ l ls, splitOnByte sep t = l :: ls := by
  induction t with
  | nil => exact ⟨[], [], rfl⟩
  | cons b t' ih =>
      obtain ⟨l, ls, h⟩ := ih
      by_cases hb : b = sep
      · exact ⟨[], l :: ls, by rw [splitOnByte_cons_eq sep b t' l ls h, if_pos hb]⟩
      · exact ⟨b :: l, ls, by rw [splitOnByte_cons_eq sep b t' l ls h, if_neg hb]⟩

/-- Helper: `splitOnByte` always has a last segment. -/
lemma splitOnByte_exists_concat (sep : Nat) (t : List Nat) :
    ∃ X r, splitOnByte sep t = X ++ [r] := by
  obtain ⟨l, ls, h⟩ := splitOnByte_exists_cons sep t
  rcases (l :: ls).eq_nil_or_concat with h2 | ⟨X, r, h2⟩
  · exact absurd h2 (by simp)
  · exact ⟨X, r, by rw [h]; simpa using h2⟩

/-- Helper: how `splitOnByte` acts on a concatenation — the last segment of
the first part fuses with the first segment of the second part. -/
lemma splitOnByte_append (sep : Nat) (v h : List Nat) (t : List (List Nat))
    (hv : splitOnByte sep v = h :: t) :
    ∀ (u : List Nat) (X : List (List Nat)) (r : List Nat),
      splitOnByte sep u = X ++ [r] →
      splitOnByte sep (u ++ v) = X ++ (r ++ h) :: t := by
  intro u
  induction u with
  | nil =>
      intro X r hu
      have hu2 : ([] : List (List Nat)) ++ [([] : List Nat)] = X ++ [r] := by
        simpa using hu
      obtain ⟨hX, hr⟩ := List.append_inj' hu2 rfl
      have hr' : r = [] := by simpa using hr.symm
      subst hr'
      rw [← hX]
      simpa using hv
  | cons c u' ih =>
      intro X r hu
      obtain ⟨X', r', hu'⟩ := splitOnByte_exists_concat sep u'
      have ihv := ih X' r' hu'
      rw [List.cons_append]
      cases X' with
      | nil =>
          simp only [List.nil_append] at hu' ihv
          rw [splitOnByte_cons_eq sep c (u' ++ v) (r' ++ h) t ihv]
          rw [splitOnByte_cons_eq sep c u' r' [] hu'] at hu
          by_cases hc : c = sep
          · rw [if_pos hc] at hu ⊢
            have hu2 : [([] : List Nat)] ++ [r'] = X ++ [r] := by simpa using hu
            obtain ⟨hX, hr⟩ := List.append_inj' hu2 rfl
            have hr' : r = r' := by simpa using hr.symm
            subst hr'
            rw [← hX]
            rfl
          · rw [if_neg hc] at hu ⊢
            have hu2 : ([] : List (List Nat)) ++ [c :: r'] = X ++ [r] := by
              simpa using hu
            obtain ⟨hX, hr⟩ := List.append_inj' hu2 rfl
            have hr' : r = c :: r' := by simpa using hr.symm
            subst hr'
            rw [← hX]
            rfl
      | cons x X'' =>
          have hu'' : splitOnByte sep u' = x :: (X'' ++ [r']) := by simpa using hu'
          have ihv' : splitOnByte sep (u' ++ v) = x :: (X'' ++ (r' ++ h) :: t) := by
            simpa using ihv
          rw [splitOnByte_cons_eq sep c (u' ++ v) x (X'' ++ (r' ++ h) :: t) ihv']
          rw [splitOnByte_cons_eq sep c u' x (X'' ++ [r']) hu''] at hu
          by_cases hc : c = sep
          · rw [if_pos hc] at hu ⊢
            have hu2 : ([] :: x :: X'') ++ [r'] = X ++ [r] := by simpa using hu
            obtain ⟨hX, hr⟩ := List.append_inj' hu2 rfl
            have hr' : r = r' := by simpa using hr.symm
            subst hr'
            rw [← hX]
            rfl
          · rw [if_neg hc] at hu ⊢
            have hu2 : ((c :: x) :: X'') ++ [r'] = X ++ [r] := by simpa using hu
            obtain ⟨hX, hr⟩ := List.append_inj' hu2 rfl
            have hr' : r = r' := by simpa using hr.symm
            subst hr'
            rw [← hX]
            rfl

/-- Helper: appending the separator appends one empty segment. -/
lemma splitOnByte_snoc_sep (sep : Nat) (u : List Nat) (X : List (List Nat))
    (r : List Nat) (hu : splitOnByte sep u = X ++ [r]) :
    splitOnByte sep (u ++ [sep]) = X ++ [r, []] := by
  have hv : splitOnByte sep [sep] = [] :: [[]] := by
    rw [splitOnByte_cons_eq sep sep [] [] [] rfl, if_pos rfl]
  have hm := splitOnByte_append sep [sep] [] [[]] hv u X r hu
  simpa using hm

/-- Helper: appending a non-separator byte extends the last segment. -/
lemma splitOnByte_snoc_ne (sep b : Nat) (hb : b ≠ sep) (u : List Nat)
    (X : List (List Nat)) (r : List Nat) (hu : splitOnByte sep u = X ++ [r]) :
    splitOnByte sep (u ++ [b]) = X ++ [r ++ [b]] := by
  have hv : splitOnByte sep [b] = [b] :: [] := by
    rw [splitOnByte_cons_eq sep b [] [] [] rfl, if_neg hb]
  exact splitOnByte_append sep [b] [b] [] hv u X r hu

/-- Helper: the default last element of a concatenation. -/
lemma getLastD_concat (X : List (List Nat)) (y : List Nat) :
    (X ++ [y]).getLastD [] = y := by
  rw [List.getLastD_eq_getLast?, List.getLast?_concat]
  rfl

/-- Helper: the completion check after a final newline inspects the stripped
previous segment. -/
lemma isComplete_snoc_ten (u : List Nat) (X : List (List Nat)) (r : List Nat)
    (hu : splitOnByte 10 u = X ++ [r]) :
    isComplete (u ++ [10]) = (stripCr r == ([] : List Nat)) := by
  have hsegs : splitOnByte 10 (u ++ [10]) = (X ++ [r]) ++ [[]] := by
    rw [splitOnByte_snoc_sep 10 u X r hu]
    simp
  simp only [isComplete, rustLines, hsegs]
  rw [if_pos (by rw [List.getLast?_concat])]
  rw [List.dropLast_concat, List.map_append]
  simp only [List.map_cons, List.map_nil]
  rw [List.getLast?_concat]
  rfl

/-- Helper: the completion check fails on bytes not ending in a newline,
because the verbatim last line is then non-empty. -/
lemma isComplete_snoc_ne_ten (u : List Nat) (b : Nat) (hb : b ≠ 10) :
    isComplete (u ++ [b]) = false := by
  obtain ⟨X, r, hu⟩ := splitOnByte_exists_concat 10 u
  have hsegs := splitOnByte_snoc_ne 10 b hb u X r hu
  simp only [isComplete, rustLines, hsegs]
  rw [if_neg (by rw [List.getLast?_concat]; simp)]
  rw [List.dropLast_concat, getLastD_concat, List.getLast?_concat]
  simp

/-- Helper: stripping a carriage return yields the empty line exactly for the
empty segment and the lone `"\r"` segment. -/
lemma stripCr_eq_nil (l : List Nat) : stripCr l = [] ↔ l = [] ∨ l = [13] := by
  rcases l.eq_nil_or_concat with rfl | ⟨l', x, hl⟩
  · simp [stripCr]
  · have hl' : l = l' ++ [x] := by simpa using hl
    subst hl'
    simp only [stripCr, List.getLast?_concat]
    by_cases hx : x = 13
    · subst hx
      rw [if_pos rfl, List.dropLast_concat]
      constructor
      · intro h
        rw [h]
        exact Or.inr rfl
      · rintro (h | h)
        · exact absurd h (by simp)
        · have h2 : l' ++ [13] = [] ++ [13] := by simpa using h
          exact (List.append_inj' h2 rfl).1
    · rw [if_neg (by simp [hx])]
      constructor
      · intro h
        exact absurd h (by simp)
      · rintro (h | h)
        · exact absurd h (by simp)
        · have h2 : l' ++ [x] = [] ++ [13] := by simpa using h
          have h3 := (List.append_inj' h2 rfl).2
          simp at h3
          exact absurd h3 hx

/-- Helper: the last segment is empty exactly when the bytes are empty or end
in a newline. -/
lemma lastSeg_eq_nil (u : List Nat) (X : List (List Nat)) (r : List Nat)
    (hu : splitOnByte 10 u = X ++ [r]) :
    r = [] ↔ (u = [] ∨ ∃ v, u = v ++ [10]) := by
  rcases u.eq_nil_or_concat with rfl | ⟨w, c, hw⟩
  · have h2 : ([] : List (List Nat)) ++ [([] : List Nat)] = X ++ [r] := by
      simpa using hu
    have hr : r = [] := by simpa using (List.append_inj' h2 rfl).2.symm
    simp [hr]
  · have hw' : u = w ++ [c] := by simpa using hw
    subst hw'
    obtain ⟨X', r', hw2⟩ := splitOnByte_exists_concat 10 w
    by_cases hc : c = 10
    · subst hc
      have h2 := splitOnByte_snoc_sep 10 w X' r' hw2
      have h3 : (X' ++ [r']) ++ [([] : List Nat)] = X ++ [r] := by
        rw [← hu, h2]
        simp
      have hr : r = [] := by simpa using (List.append_inj' h3 rfl).2.symm
      constructor
      · intro _
        exact Or.inr ⟨w, rfl⟩
      · intro _
        exact hr
    · have h2 := splitOnByte_snoc_ne 10 c hc w X' r' hw2
      have h3 : X' ++ [r' ++ [c]] = X ++ [r] := by rw [← hu, h2]
      have hr : r = r' ++ [c] := by simpa using (List.append_inj' h3 rfl).2.symm
      apply iff_of_false
      · rw [hr]
        simp
      · rintro (h | ⟨v, h⟩)
        · exact absurd h (by simp)
        · have h4 := (List.append_inj' h rfl).2
          simp at h4
          exact absurd h4 hc

/-- Helper: the last segment is the lone `"\r"` exactly when the bytes are
`"\r"` itself or end in `"\n\r"`. -/
lemma lastSeg_eq_cr (u : List Nat) (X : List (List Nat)) (r : List Nat)
    (hu : splitOnByte 10 u = X ++ [r]) :
    r = [13] ↔ (u = [13] ∨ ∃ v, u = v ++ [10, 13]) := by
  rcases u.eq_nil_or_concat with rfl | ⟨w, c, hw⟩
  · have h2 : ([] : List (List Nat)) ++ [([] : List Nat)] = X ++ [r] := by
      simpa using hu
    have hr : r = [] := by simpa using (List.append_inj' h2 rfl).2.symm
    apply iff_of_false
    · rw [hr]
      simp
    · rintro (h | ⟨v, h⟩) <;> simp at h
  · have hw' : u = w ++ [c] := by simpa using hw
    subst hw'
    obtain ⟨X', r', hw2⟩ := splitOnByte_exists_concat 10 w
    by_cases hc : c = 10
    · subst hc
      have h2 := splitOnByte_snoc_sep 10 w X' r' hw2
      have h3 : (X' ++ [r']) ++ [([] : List Nat)] = X ++ [r] := by
        rw [← hu, h2]
        simp
      have hr : r = [] := by simpa using (List.append_inj' h3 rfl).2.symm
      apply iff_of_false
      · rw [hr]
        simp
      · rintro (h | ⟨v, h⟩)
        · have h4 := congrArg List.getLast? h
          rw [List.getLast?_concat] at h4
          simp at h4
        · have h5 : w ++ [10] = (v ++ [10]) ++ [13] := by rw [h]; simp
          have h4 := (List.append_inj' h5 rfl).2
          simp at h4
    · have h2 := splitOnByte_snoc_ne 10 c hc w X' r' hw2
      have h3 : X' ++ [r' ++ [c]] = X ++ [r] := by rw [← hu, h2]
      have hr : r = r' ++ [c] := by simpa using (List.append_inj' h3 rfl).2.symm
      by_cases hc13 : c = 13
      · subst hc13
        have hiff1 : r = [13] ↔ r' = [] := by
          rw [hr]
          constructor
          · intro h
            have h4 : r' ++ [13] = [] ++ [13] := by simpa using h
            exact (List.append_inj' h4 rfl).1
          · intro h
            rw [h]
            rfl
        rw [hiff1, lastSeg_eq_nil w X' r' hw2]
        constructor
        · rintro (h | ⟨v, h⟩)
          · exact Or.inl (by simp [h])
          · refine Or.inr ⟨v, ?_⟩
            rw [h]
            simp
        · rintro (h | ⟨v, h⟩)
          · have h4 : w ++ [13] = [] ++ [13] := by simpa using h
            exact Or.inl (List.append_inj' h4 rfl).1
          · have h5 : w ++ [13] = (v ++ [10]) ++ [13] := by rw [h]; simp
            exact Or.inr ⟨v, (List.append_inj' h5 rfl).1⟩
      · apply iff_of_false
        · rw [hr]
          intro h
          have h4 : r' ++ [c] = [] ++ [13] := by simpa using h
          have h6 := (List.append_inj' h4 rfl).2
          simp at h6
          exact absurd h6 hc13
        · rintro (h | ⟨v, h⟩)
          · have h4 : w ++ [c] = [] ++ [13] := by simpa using h
            have h6 := (List.append_inj' h4 rfl).2
            simp at h6
            exact absurd h6 hc13
          · have h5 : w ++ [c] = (v ++ [10]) ++ [13] := by rw [h]; simp
            have h6 := (List.append_inj' h5 rfl).2
            simp at h6
            exact absurd h6 hc13

/-- Helper: a reversed list is empty exactly when the list is. -/
lemma rev_eq_nil (u : List Nat) : u.reverse = [] ↔ u = [] := by
  constructor
  · intro h
    have h2 := congrArg List.reverse h
    simpa using h2
  · intro h
    rw [h]
    rfl

/-- Helper: a reversed list is the lone `"\r"` exactly when the list is. -/
lemma rev_eq_cr (u : List Nat) : u.reverse = [13] ↔ u = [13] := by
  constructor
  · intro h
    have h2 := congrArg List.reverse h
    simpa using h2
  · intro h
    rw [h]
    rfl

/-- Helper: the first reversed byte is a newline exactly when the bytes end
in one. -/
lemma reverse_take_one_eq (u : List Nat) :
    u.reverse.take 1 = [10] ↔ ∃ v, u = v ++ [10] := by
  rcases u.eq_nil_or_concat with rfl | ⟨w, c, hw⟩
  · simp
  · have hw' : u = w ++ [c] := by simpa using hw
    subst hw'
    rw [List.reverse_append]
    simp only [List.reverse_cons, List.reverse_nil, List.nil_append,
      List.cons_append, List.take_succ_cons, List.take_zero, List.cons.injEq,
      and_true]
    constructor
    · intro h
      exact ⟨w, by rw [h]⟩
    · rintro ⟨v, h⟩
      have h2 := (List.append_inj' h rfl).2
      simpa using h2

/-- Helper: the first two reversed bytes are `"\r\n"` backwards exactly when
the bytes end in `"\n\r"`. -/
lemma reverse_take_two_eq (u : List Nat) :
    u.reverse.take 2 = [13, 10] ↔ ∃ v, u = v ++ [10, 13] := by
  rcases u.eq_nil_or_concat with rfl | ⟨w, c, hw⟩
  · simp
  · have hw' : u = w ++ [c] := by simpa using hw
    subst hw'
    rw [List.reverse_append]
    simp only [List.reverse_cons, List.reverse_nil, List.nil_append,
      List.cons_append, List.take_succ_cons, List.cons.injEq]
    rw [reverse_take_one_eq w]
    constructor
    · rintro ⟨hc, v, hv⟩
      refine ⟨v, ?_⟩
      rw [hc, hv]
      simp
    · rintro ⟨v, h⟩
      have h5 : w ++ [c] = (v ++ [10]) ++ [13] := by rw [h]; simp
      obtain ⟨h6, h7⟩ := List.append_inj' h5 rfl
      simp only [List.cons.injEq] at h7
      exact ⟨h7.1, v, h6⟩

/-- Helper: the blank-line-suffix predicate fails on bytes not ending in a
newline. -/
lemma endsBlank_snoc_ne (u : List Nat) (b : Nat) (hb : b ≠ 10) :
    endsBlank (u ++ [b]) = false := by
  unfold endsBlank
  rw [List.reverse_append]
  simp [hb]

/-- Helper: the four ways bytes ending in a newline can end in a terminating
blank line. -/
lemma endsBlank_snoc_ten (u : List Nat) :
    endsBlank (u ++ [10]) = true
      ↔ (u = [] ∨ (∃ v, u = v ++ [10]) ∨ u = [13] ∨ ∃ v, u = v ++ [10, 13]) := by
  unfold endsBlank
  rw [List.reverse_append]
  simp only [List.reverse_cons, List.reverse_nil, List.nil_append,
    List.cons_append, Bool.or_eq_true, decide_eq_true_eq, List.take_succ_cons,
    List.cons.injEq, true_and]
  rw [reverse_take_one_eq, reverse_take_two_eq, rev_eq_nil, rev_eq_cr]
  tauto

/-- Helper: the program's completion check agrees with the blank-line-suffix
predicate on every byte sequence. -/
lemma isComplete_eq_endsBlank (t : List Nat) : isComplete t = endsBlank t := by
  rcases t.eq_nil_or_concat with rfl | ⟨u, b, ht⟩
  · decide
  · have ht' : t = u ++ [b] := by simpa using ht
    subst ht'
    by_cases hb : b = 10
    · subst hb
      obtain ⟨X, r, hu⟩ := splitOnByte_exists_concat 10 u
      rw [isComplete_snoc_ten u X r hu, Bool.eq_iff_iff, beq_iff_eq,
        stripCr_eq_nil, lastSeg_eq_nil u X r hu, lastSeg_eq_cr u X r hu,
        endsBlank_snoc_ten u]
      tauto
    · rw [isComplete_snoc_ne_ten u b hb, endsBlank_snoc_ne u b hb]

/-- C2: the request-detection logic — which after each appended chunk checks
whether the last logical line of the bytes accumulated so far is empty —
declares the request complete exactly when the accumulated bytes end in a
terminating blank line (the check `isComplete` agrees with the
blank-line-suffix predicate `endsBlank` on every byte sequence); and for
every byte sequence forming a request head (terminated by its only blank
line) delivered in chunks of any sizes, completion is first declared exactly
when the accumulation reaches the full head: every partition stops with the
same accumulated contents, the whole head, hence at the same byte position
in the stream. -/
theorem detect_blankline_invariant (s : List Nat) (chunks : List (List Nat))
    (hjoin : chunks.flatten = s) (hend : endsBlank s = true)
    (hpre : ∀ k, k < s.length → endsBlank (s.take k) = false) :
    (∀ t, isComplete t = endsBlank t) ∧ ∃ n, detect chunks = some (n, s) := by
  refine ⟨isComplete_eq_endsBlank, ?_⟩
  have hc : isComplete s = true := by
    rw [isComplete_eq_endsBlank]
    exact hend
  have hpre' : ∀ k, k < s.length → isComplete (s.take k) = false := by
    intro k hk
    rw [isComplete_eq_endsBlank]
    exact hpre k hk
  have hne : ([] : List Nat) ≠ s := by
    intro h
    rw [← h] at hc
    exact absurd hc (by decide)
  exact detectFrom_reaches s hc hpre' chunks [] 0 (by simpa using hjoin) hne

/-- Witness for C2: the CRLF-terminated head `GET / HTTP/1.1\r\n\r\n`
delivered in 1-byte chunks completes exactly at the full 18-byte head. -/
theorem detect_blankline_invariant_witness :
    (∀ t, isComplete t = endsBlank t)
    ∧ ∃ n, detect (crlfHead.map (fun b => [b])) = some (n, crlfHead) :=
  detect_blankline_invariant crlfHead (crlfHead.map (fun b => [b]))
    (by decide) (by decide) (by decide)

/-- C6: in the request-read loop a would-block outcome of the non-blocking
decrypted read behaves exactly like a successful zero-byte read — the
accumulated buffer (read cursor) is unchanged and, when the completion check
does not fire, the loop goes round again from the ciphertext sync-I/O step —
while every read error other than would-block is fatal to the connection
unit (the `unwrap` panics). -/
theorem readLoop_would_block (rest : List RdIter) (buf : List Nat) :
    readLoop (RdIter.wouldBlock :: rest) buf = readLoop (RdIter.data [] :: rest) buf
    ∧ (isComplete buf = false →
        readLoop (RdIter.wouldBlock :: rest) buf = readLoop rest buf)
    ∧ readLoop (RdIter.readErr :: rest) buf = ReadResult.panicked := by
  refine ⟨by simp [readLoop], fun h => by simp [readLoop, h], rfl⟩

/-- Witness for C6 on the partial buffer `GET`. -/
theorem readLoop_would_block_witness :
    readLoop [RdIter.wouldBlock] (strBytes "GET")
      = readLoop [RdIter.data []] (strBytes "GET")
    ∧ readLoop [RdIter.wouldBlock] (strBytes "GET")
      = readLoop [] (strBytes "GET")
    ∧ readLoop [RdIter.readErr] (strBytes "GET") = ReadResult.panicked :=
  ⟨(readLoop_would_block [] (strBytes "GET")).1,
   (readLoop_would_block [] (strBytes "GET")).2.1 (by decide),
   (readLoop_would_block [] (strBytes "GET")).2.2⟩

/-- Helper: the read loop only finishes via the completion check. -/
lemma readLoop_done_isComplete :
    ∀ (iters : List RdIter) (buf fin : List Nat),
      readLoop iters buf = ReadResult.done fin → isComplete fin = true := by
  intro iters
  induction iters with
  | nil => intro buf fin h; simp [readLoop] at h
  | cons it rest ih =>
      intro buf fin h
      cases it with
      | ioErr => simp [readLoop] at h
      | readErr => simp [readLoop] at h
      | wouldBlock =>
          simp only [readLoop] at h
          split at h
          · cases h; assumption
          · exact ih _ _ h
      | data c =>
          simp only [readLoop] at h
          split at h
          · cases h; assumption
          · exact ih _ _ h

/-- C10: whenever the request-read loop exits through the
last-line-is-empty check, the finalized buffer is non-empty, splitting it
into lines yields at least one line, and extracting the first request line
succeeds (the `unwrap` at main.rs:105 is unreachable on that path). -/
theorem readLoop_done_first_line (iters : List RdIter) (buf fin : List Nat)
    (h : readLoop iters buf = ReadResult.done fin) :
    fin ≠ [] ∧ rustLines fin ≠ [] ∧ (requestLine? fin).isSome = true := by
  have hc := readLoop_done_isComplete iters buf fin h
  have hfin : fin ≠ [] := by
    intro he
    rw [he] at hc
    exact absurd hc (by decide)
  have hlines : rustLines fin ≠ [] := by
    intro he
    unfold isComplete at hc
    rw [he] at hc
    exact absurd hc (by decide)
  refine ⟨hfin, hlines, ?_⟩
  unfold requestLine?
  cases hl : rustLines fin with
  | nil => exact absurd hl hlines
  | cons a t => simp

/-- Witness for C10 on a whole-buffer delivery of `GET / HTTP/1.1\n\n`. -/
theorem readLoop_done_first_line_witness :
    goodHead ≠ [] ∧ rustLines goodHead ≠ []
    ∧ (requestLine? goodHead).isSome = true :=
  readLoop_done_first_line [RdIter.data goodHead] [] goodHead (by decide)

/-- C9 amended: the request buffer is the fixed 4096-byte `vec![0u8; 4096]`,
not growable: each read appends at most the remaining capacity, so whenever
the loop finalizes, the accumulated bytes extend the starting buffer, fit in
4096 bytes, and satisfy the blank-line completion check; the finalized
buffer is then truncated to exactly the accumulated bytes and interpreted as
UTF-8 (`finalizeRequest`). -/
theorem readLoop_capacity (iters : List RdIter) (buf fin : List Nat)
    (hcap : buf.length ≤ 4096) (h : readLoop iters buf = ReadResult.done fin) :
    fin.length ≤ 4096 ∧ isComplete fin = true ∧ buf <+: fin := by
  induction iters generalizing buf with
  | nil => simp [readLoop] at h
  | cons it rest ih =>
      cases it with
      | ioErr => simp [readLoop] at h
      | readErr => simp [readLoop] at h
      | wouldBlock =>
          simp only [readLoop] at h
          split at h
          · cases h
            exact ⟨hcap, by assumption, ⟨[], List.append_nil _⟩⟩
          · exact ih buf hcap h
      | data c =>
          simp only [readLoop] at h
          split at h
          · cases h
            refine ⟨?_, by assumption, ⟨_, rfl⟩⟩
            rw [List.length_append, List.length_take]
            omega
          · have h1 : (buf ++ c.take (4096 - buf.length)).length ≤ 4096 := by
              rw [List.length_append, List.length_take]
              omega
            obtain ⟨hl, hco, t, ht⟩ := ih _ h1 h
            exact ⟨hl, hco, c.take (4096 - buf.length) ++ t,
              by rw [← List.append_assoc, ht]⟩

/-- Witness for C9's amended statement on a whole-buffer delivery of
`GET / HTTP/1.1\n\n` into the empty buffer. -/
theorem readLoop_capacity_witness :
    goodHead.length ≤ 4096 ∧ isComplete goodHead = true
    ∧ ([] : List Nat) <+: goodHead :=
  readLoop_capacity [RdIter.data goodHead] [] goodHead (by decide) (by decide)

/-- Helper: prepending separator-free bytes to a sequence extends the first
segment of its split and leaves the rest unchanged. -/
lemma splitOnByte_append_no_sep (sep : Nat) :
    ∀ (l s r : List Nat) (rs : List (List Nat)),
      splitOnByte sep s = r :: rs → (∀ b ∈ l, b ≠ sep) →
      splitOnByte sep (l ++ s) = (l ++ r) :: rs := by
  intro l
  induction l with
  | nil => intro s r rs h _; simpa using h
  | cons b l' ih =>
      intro s r rs h hnb
      have hb : b ≠ sep := hnb b (by simp)
      have ih' := ih s r rs h (fun x hx => hnb x (by simp [hx]))
      rw [List.cons_append]
      show (match splitOnByte sep (l' ++ s) with
            | [] => [[]]
            | l :: ls => if b = sep then [] :: l :: ls else (b :: l) :: ls)
          = ((b :: l') ++ r) :: rs
      rw [ih']
      show (if b = sep then [] :: (l' ++ r) :: rs else (b :: (l' ++ r)) :: rs)
          = ((b :: l') ++ r) :: rs
      rw [if_neg hb]
      rfl

/-- Helper: no byte of the `'a'` run is a newline. -/
lemma replicate_a_no_nl : ∀ b ∈ List.replicate 4095 97, b ≠ 10 := by
  intro b hb
  rw [List.eq_of_mem_replicate hb]
  decide

/-- Helper: the last byte of the `'a'` run. -/
lemma replicate_a_getLast :
    (List.replicate 4095 97).getLast? = some 97 := by
  have h : List.replicate 4095 97 = List.replicate 4094 97 ++ [97] :=
    List.replicate_succ' 4094 97
  rw [h, List.getLast?_concat]

/-- Helper: the `'a'` run is non-empty. -/
lemma replicate_a_ne_nil : List.replicate 4095 97 ≠ [] := by
  intro h
  have hl := congrArg List.length h
  rw [List.length_replicate, List.length_nil] at hl
  exact absurd hl (by decide)

/-- Helper: the `'a'` run does not end in a carriage return. -/
lemma replicate_a_not_cr : (List.replicate 4095 97).getLast? ≠ some 13 := by
  rw [replicate_a_getLast]
  decide

/-- Helper: a newline-free sequence not ending in `'\r'` followed by a blank
line passes the completion check (its last line is empty). -/
lemma isComplete_append_blank (A : List Nat) (hno : ∀ b ∈ A, b ≠ 10)
    (hcr : A.getLast? ≠ some 13) : isComplete (A ++ [10, 10]) = true := by
  have hsplit : splitOnByte 10 (A ++ [10, 10]) = (A ++ []) :: [[], []] :=
    splitOnByte_append_no_sep 10 A [10, 10] [] [[], []] (by decide) hno
  rw [List.append_nil] at hsplit
  simp only [isComplete, rustLines, hsplit]
  simp [stripCr, hcr]

/-- Helper: a non-empty newline-free sequence not ending in `'\r'` followed by
a single newline fails the completion check (its last line is the sequence
itself). -/
lemma isComplete_append_nl (A : List Nat) (hno : ∀ b ∈ A, b ≠ 10)
    (hcr : A.getLast? ≠ some 13) (hne : A ≠ []) :
    isComplete (A ++ [10]) = false := by
  have hsplit : splitOnByte 10 (A ++ [10]) = (A ++ []) :: [[]] :=
    splitOnByte_append_no_sep 10 A [10] [] [[]] (by decide) hno
  rw [List.append_nil] at hsplit
  simp only [isComplete, rustLines, hsplit]
  simp [stripCr, hcr, hne]

/-- Helper: the oversized head does satisfy the completion check. -/
lemma isComplete_oversizedHead : isComplete oversizedHead = true :=
  isComplete_append_blank (List.replicate 4095 97) replicate_a_no_nl
    replicate_a_not_cr

/-- Helper: the 4096-byte truncation of the oversized head (the `'a'` run
plus the first `\n`) fails the completion check. -/
lemma isComplete_truncatedHead :
    isComplete (List.replicate 4095 97 ++ [10]) = false :=
  isComplete_append_nl (List.replicate 4095 97) replicate_a_no_nl
    replicate_a_not_cr replicate_a_ne_nil

/-- Helper: what the fixed-size buffer actually takes from the oversized
head: the first 4096 bytes only. -/
lemma take_oversizedHead :
    oversizedHead.take 4096 = List.replicate 4095 97 ++ [10] := by
  show (List.replicate 4095 97 ++ [10, 10]).take 4096
      = List.replicate 4095 97 ++ [10]
  rw [List.take_append_eq_append_take,
    List.take_of_length_le (by rw [List.length_replicate]; omega),
    List.length_replicate]
  congr 1

/-- Helper: one read-loop iteration that appends data without completing. -/
lemma readLoop_data_step (c : List Nat) (rest : List RdIter) (buf : List Nat)
    (h : isComplete (buf ++ c.take (4096 - buf.length)) = false) :
    readLoop (RdIter.data c :: rest) buf
      = readLoop rest (buf ++ c.take (4096 - buf.length)) := by
  simp only [readLoop, h]
  simp

/-- C9 counterexample: the request buffer is not growable.  The valid
4097-byte blank-line-terminated head `aaa…a\n\n` is never finalized: the
fixed 4096-byte buffer truncates the first delivery to `aaa…a\n`, the
completion check fails on it, and every further delivery appends nothing
(the capacity is exhausted), so the loop never reaches finalization even
though the full head satisfies the completion check. -/
theorem request_buffer_fixed_counterexample :
    isComplete oversizedHead = true
    ∧ oversizedHead.length = 4097
    ∧ readLoop [RdIter.data oversizedHead, RdIter.data oversizedHead] []
        = ReadResult.outOfInput := by
  have hlen97 : oversizedHead.length = 4097 := by
    show (List.replicate 4095 97 ++ [10, 10]).length = 4097
    rw [List.length_append, List.length_replicate]
    rfl
  have hlen96 : (List.replicate 4095 97 ++ [10]).length = 4096 := by
    rw [List.length_append, List.length_replicate]
    rfl
  refine ⟨isComplete_oversizedHead, hlen97, ?_⟩
  have e1 : ([] : List Nat) ++ oversizedHead.take (4096 - ([] : List Nat).length)
      = List.replicate 4095 97 ++ [10] := by
    rw [List.nil_append, List.length_nil, Nat.sub_zero, take_oversizedHead]
  have e2 : (List.replicate 4095 97 ++ [10])
        ++ oversizedHead.take (4096 - (List.replicate 4095 97 ++ [10]).length)
      = List.replicate 4095 97 ++ [10] := by
    rw [hlen96, Nat.sub_self, List.take_zero, List.append_nil]
  rw [readLoop_data_step _ _ _ (by rw [e1]; exact isComplete_truncatedHead), e1]
  rw [readLoop_data_step _ _ _ (by rw [e2]; exact isComplete_truncatedHead), e2]
  rfl

/-- Helper for C5: the inner drain loop of `respond` only returns when the
session reports no pending outbound ciphertext, and it emits no plaintext
hand-off events. -/
lemma drainWrites_some (outs : Nat → Nat) :
    ∀ (fuel i p : Nat) (r : Nat × Nat × List WEv),
      drainWrites outs fuel i p = some r → r.2.1 = 0 ∧ handsOf r.2.2 = [] := by
  intro fuel
  induction fuel with
  | zero =>
      intro i p r h
      cases p with
      | zero =>
          simp only [drainWrites] at h
          cases h
          exact ⟨rfl, rfl⟩
      | succ p' => simp [drainWrites] at h
  | succ f ih =>
      intro i p r h
      cases p with
      | zero =>
          simp only [drainWrites] at h
          cases h
          exact ⟨rfl, rfl⟩
      | succ p' =>
          simp only [drainWrites] at h
          rcases hrec : drainWrites outs f (i + 1) (p' + 1 - min (outs i) (p' + 1))
            with _ | ⟨i', pfin, evs⟩
          · rw [hrec] at h; simp at h
          · rw [hrec] at h
            cases h
            have := ih (i + 1) (p' + 1 - min (outs i) (p' + 1)) (i', pfin, evs) hrec
            simpa [handsOf] using this

/-- Helper for C5: every successful run of the outer write loop hands the
plaintext to the session in chunks whose reported-accepted sizes sum to the
whole buffer, each hand-off happening with zero pending ciphertext and
accepting at most what was offered. -/
lemma respondLoop_some (outs accepts : Nat → Nat) (enc : Nat → Nat → Nat) (d : Nat) :
    ∀ (fuel i j : Nat) (buf : List Nat) (pending pend : Nat) (evs : List WEv),
      respondLoop outs accepts enc d fuel i j buf pending = some (pend, evs) →
      ((handsOf evs).map (fun x => x.2.1)).sum = buf.length
      ∧ ∀ x ∈ handsOf evs, x.2.2 = 0 ∧ x.2.1 ≤ x.1 := by
  intro fuel
  induction fuel with
  | zero =>
      intro i j buf pending pend evs h
      simp only [respondLoop] at h
      split at h
      · rename_i hemp
        cases h
        have hb : buf = [] := List.isEmpty_iff.mp hemp
        simp [hb, handsOf]
      · exact absurd h (by simp)
  | succ f ih =>
      intro i j buf pending pend evs h
      simp only [respondLoop] at h
      split at h
      · rename_i hemp
        cases h
        have hb : buf = [] := List.isEmpty_iff.mp hemp
        simp [hb, handsOf]
      · split at h
        · exact absurd h (by simp)
        · rename_i i' pfin devs hd
          split at h
          · exact absurd h (by simp)
          · rename_i pend' evs' hr
            rw [Option.some.injEq, Prod.mk.injEq] at h
            obtain ⟨hpe, hev⟩ := h
            subst hev
            obtain ⟨hp0, hdevs⟩ := drainWrites_some outs d i pending _ hd
            obtain ⟨hsum, hall⟩ := ih i' (j + 1) _ _ pend' evs' hr
            have hk : min (accepts j) buf.length ≤ buf.length :=
              Nat.min_le_right _ _
            have hh : handsOf (devs
                  ++ WEv.handPlain buf.length (min (accepts j) buf.length) pfin
                  :: evs')
                = (buf.length, min (accepts j) buf.length, pfin)
                  :: handsOf evs' := by
              rw [handsOf_append, hdevs, List.nil_append, handsOf_cons_hand]
            constructor
            · rw [hh]
              show min (accepts j) buf.length
                  + ((handsOf evs').map (fun x => x.2.1)).sum = buf.length
              rw [hsum, List.length_drop]
              omega
            · intro x hx
              rw [hh] at hx
              rcases List.mem_cons.mp hx with hx1 | hx2
              · subst hx1
                exact ⟨hp0, hk⟩
              · exact hall x hx2

/-- C5: for every plaintext response buffer, a completed run of the response
writer drains pending outbound ciphertext before each plaintext hand-off
(pending is zero at every hand-off), hands over chunks whose session-reported
accepted sizes (each at most the offered size) advance the cursor until the
accepted sizes sum to the whole buffer, and then ends with the closing
sequence in which a close-notify is followed by a full ciphertext I/O sync
and then a flush of the raw transport's write buffer. -/
theorem respond_spec (outs accepts : Nat → Nat) (enc : Nat → Nat → Nat)
    (d fuel : Nat) (buf : List Nat) (pending0 : Nat) (tr : List WEv)
    (h : respond outs accepts enc d fuel buf pending0 = some tr) :
    RespondTraceOk buf tr := by
  unfold respond at h
  rcases hl : respondLoop outs accepts enc d fuel 0 0 buf pending0
    with _ | ⟨pend, evs⟩
  · rw [hl] at h; simp at h
  · rw [hl] at h
    injection h with h'
    obtain ⟨hsum, hall⟩ :=
      respondLoop_some outs accepts enc d fuel 0 0 buf pending0 pend evs hl
    exact ⟨evs, h'.symm, hsum, hall⟩

/-- Witness for C5 on the concrete run producing `respondDemoTrace`. -/
theorem respond_spec_witness :
    RespondTraceOk [1, 2, 3, 4, 5, 6, 7] respondDemoTrace :=
  respond_spec (fun _ => 5) (fun _ => 3) (fun _ _ => 4) 10 10
    [1, 2, 3, 4, 5, 6, 7] 4 respondDemoTrace (by decide)

/-- C7: if the finalized request's first line does not start with `GET`, the
connection unit panics (terminating the connection) and in particular never
reaches any of the three response generators nor `respond`: no response
value is produced. -/
theorem serve_non_get_panics (hs : List HsIter) (rd : List RdIter)
    (fin line : List Nat)
    (hhs : runHandshake hs = HsOutcome.completed)
    (hrd : readLoop rd [] = ReadResult.done fin)
    (hutf : validUtf8 fin = true)
    (hline : requestLine? fin = some line)
    (hget : startsWithGET line = false) :
    serveOnce hs rd = ServeResult.panicked
    ∧ ∀ r, serveOnce hs rd ≠ ServeResult.response r := by
  have hfin : finalizeRequest fin = some fin := by
    unfold finalizeRequest
    rw [if_pos hutf]
  have hhr : handleRequest fin = HandleResult.panicked := by
    unfold handleRequest
    rw [hline]
    show (if startsWithGET line then
            match pathSegment? line with
            | none => HandleResult.panicked
            | some p => HandleResult.resp (dispatch p)
          else HandleResult.panicked) = HandleResult.panicked
    rw [hget]
    rfl
  have hmain : serveOnce hs rd = ServeResult.panicked := by
    unfold serveOnce
    rw [hhs, hrd]
    show (match finalizeRequest fin with
          | none => ServeResult.errProp
          | some req =>
              match handleRequest req with
              | HandleResult.panicked => ServeResult.panicked
              | HandleResult.resp r => ServeResult.response r)
        = ServeResult.panicked
    rw [hfin]
    show (match handleRequest fin with
          | HandleResult.panicked => ServeResult.panicked
          | HandleResult.resp r => ServeResult.response r)
        = ServeResult.panicked
    rw [hhr]
  exact ⟨hmain, fun r hr => by
    rw [hmain] at hr
    exact ServeResult.noConfusion hr⟩

/-- Witness for C7 on the request `POST / HTTP/1.1\n\n`. -/
theorem serve_non_get_panics_witness :
    serveOnce [HsIter.finished] [RdIter.data postHead] = ServeResult.panicked
    ∧ ∀ r, serveOnce [HsIter.finished] [RdIter.data postHead]
        ≠ ServeResult.response r :=
  serve_non_get_panics [HsIter.finished] [RdIter.data postHead] postHead
    (strBytes "POST / HTTP/1.1") (by decide) (by decide) (by decide)
    (by decide) (by decide)

/-- C8: if `complete_io` fails while the session is still handshaking, the
connection unit logs and returns `Ok(())` — modelled as the `okNoResponse`
result — and, for every possible subsequent read-oracle behaviour, no
request is read and no response is ever produced on that connection. -/
theorem serve_handshake_error_returns_ok (hs : List HsIter) (rd : List RdIter)
    (h : runHandshake hs = HsOutcome.abortedOk) :
    serveOnce hs rd = ServeResult.okNoResponse
    ∧ ∀ r, serveOnce hs rd ≠ ServeResult.response r := by
  have hmain : serveOnce hs rd = ServeResult.okNoResponse := by
    unfold serveOnce
    rw [h]
  exact ⟨hmain, fun r hr => by
    rw [hmain] at hr
    exact ServeResult.noConfusion hr⟩

/-- Witness for C8: a handshake whose first `complete_io` fails. -/
theorem serve_handshake_error_witness :
    serveOnce [HsIter.stepErr] [] = ServeResult.okNoResponse
    ∧ ∀ r, serveOnce [HsIter.stepErr] [] ≠ ServeResult.response r :=
  serve_handshake_error_returns_ok [HsIter.stepErr] [] (by decide)

end EarlyData
